import Mathlib

/-!
Verification development for the busybox mini tar implementation (src/tar.c).

The C code is shallowly embedded: byte buffers become `List Nat` (each element
an unsigned byte value), C `long` values decoded from octal fields become `Int`
(the spec reads them as i64; all in-range values fit), and the global reader
and writer state becomes explicit state records.  Warnings printed with
fprintf are modelled by counters or flags in the state.
-/

set_option maxRecDepth 16000

namespace Tar

/-- Octal-digit test, the isOctal macro used by getOctal: ASCII '0'..'7'. -/
def isOctalB (c : Nat) : Bool := 48 ≤ c && c ≤ 55

/-- The leading/trailing-space skipping loops of getOctal (src/tar.c:758,773):
advance while the current byte is an ASCII space. -/
def skipSpaces : List Nat → List Nat
  | [] => []
  | c :: rest => if c = 32 then skipSpaces rest else c :: rest

/-- The digit-accumulation loop of getOctal (src/tar.c:768-771):
`val = val * 8 + *cp++ - '0'` while the byte is an octal digit. -/
def parseDigits : Int → List Nat → Int × List Nat
  | acc, [] => (acc, [])
  | acc, c :: rest =>
    if isOctalB c then parseDigits (acc * 8 + ((c - 48 : Nat) : Int)) rest
    else (acc, c :: rest)

/-- getOctal after the leading-space skip (src/tar.c:763-781): if the field
is exhausted or the next byte is not an octal digit, return -1; accumulate
the octal digits; skip trailing spaces; if a byte remains and it is nonzero,
return -1; otherwise return the accumulated value. -/
def getOctalAfter (l1 : List Nat) : Int :=
  match l1 with
  | [] => -1
  | c :: t =>
    if isOctalB c = false then -1
    else
      let p := parseDigits 0 (c :: t)
      match skipSpaces p.2 with
      | [] => p.1
      | d :: _ => if d = 0 then p.1 else -1

/-- getOctal (src/tar.c:754-782): skip leading spaces, then decode. -/
def getOctal (l : List Nat) : Int := getOctalAfter (skipSpaces l)

/-- Little-endian octal digits of `n`, with explicit fuel so that the
definition is structurally recursive (the fuel `n` itself always suffices). -/
def octAux : Nat → Nat → List Nat
  | _, 0 => []
  | 0, _ + 1 => []
  | f + 1, n + 1 => (n + 1) % 8 :: octAux f ((n + 1) / 8)

/-- Little-endian octal digits of `n` (empty for 0). -/
def octLE (n : Nat) : List Nat := octAux n n

/-- Big-endian significant octal digits, as printf %lo produces them:
a single '0' for zero, no leading zeros otherwise. -/
def sigOctal (v : Nat) : List Nat := if v = 0 then [0] else (octLE v).reverse

/-- The digit bytes produced by sprintf "%0*lo" with zero-pad width `w`
(src/tar.c:1238): the significant octal digits, left-padded with '0' bytes
to at least `w` digits. -/
def sprintfOctal (w v : Nat) : List Nat :=
  (List.replicate (w - (sigOctal v).length) 0 ++ sigOctal v).map (· + 48)

/-- putOctal (src/tar.c:1226-1268).  sprintf " %0*lo" with width len-2 yields
a leading space, the zero-padded digits and a trailing NUL; if space + digits
+ NUL exceed the field, first the leading space is dropped, then the trailing
NUL; if the digits alone still exceed the field, putOctal fails (returns
FALSE) and writes nothing.  On success exactly `len` bytes are stored.
All call sites use len = 8 or len = 12, so len ≥ 2 throughout. -/
def putOctal (len v : Nat) : Option (List Nat) :=
  let ds := sprintfOctal (len - 2) v
  if ds.length + 2 ≤ len then some ((32 :: ds) ++ [0])
  else if ds.length + 1 ≤ len then some (ds ++ [0])
  else if ds.length ≤ len then some ds
  else none

/-- A numeric header field as writeHeader leaves it: the putOctal bytes on
success, or the zero bytes left by the initial memset when putOctal fails. -/
def octField (w v : Nat) : List Nat := (putOctal w v).getD (List.replicate w 0)

/-- The first 148 bytes of the TarHeader struct as writeHeader fills them
(src/tar.c:1122-1136): name (strcpy into the zeroed 100-byte field), then
mode (masked to 0777), uid, gid, size and mtime as octal fields. -/
def hdrPre (name : List Nat) (m u g sz mt : Nat) : List Nat :=
  (name ++ List.replicate (100 - name.length) 0) ++
  octField 8 (m &&& 511) ++ octField 8 u ++ octField 8 g ++
  octField 12 sz ++ octField 12 mt

/-- The 344 bytes of the TarHeader struct after the checksum field as
writeHeader leaves them (src/tar.c:1122-1138): typeFlag '0', zeroed linkName,
magic "ustar\0", version "00", zeroed uname/gname/devMajor/devMinor and the
155 zero bytes of the last field. -/
def hdrPost : List Nat :=
  [48] ++ List.replicate 100 0 ++ [117, 115, 116, 97, 114, 0] ++ [48, 48] ++
  List.replicate 32 0 ++ List.replicate 32 0 ++
  List.replicate 8 0 ++ List.replicate 8 0 ++ List.replicate 155 0

/-- The full 500-byte TarHeader struct with the checksum field passed in
explicitly. -/
def headerParts (name : List Nat) (m u g sz mt : Nat) (ck : List Nat) : List Nat :=
  hdrPre name m u g sz mt ++ ck ++ hdrPost

/-- writeHeader (src/tar.c:1112-1160): build the header with the checksum
field blanked to ASCII spaces, sum all of its bytes, then store that sum
octal-encoded into the checksum field (the spaces stay if putOctal fails). -/
def writeHeader (name : List Nat) (m u g sz mt : Nat) : List Nat :=
  let blank := headerParts name m u g sz mt (List.replicate 8 32)
  headerParts name m u g sz mt ((putOctal 8 blank.sum).getD (List.replicate 8 32))

/-- The bytes writeTarBlock (src/tar.c:1168-1218) sends to the archive for a
buffer of length len: the complete 512-byte blocks verbatim, and the trailing
incomplete block zero-padded to a full 512-byte block. -/
def padTo512 (buf : List Nat) : List Nat :=
  if buf.length % 512 = 0 then buf
  else buf ++ List.replicate (512 - buf.length % 512) 0

/-- The data bytes saveRegularFile (src/tar.c:937-1032) emits after the
header.  `fdc` is fullDataCount, initially the stat-reported size; `avail` is
what the file actually yields to fullRead; `sawEof` records a short read, after
which nothing more is read and the remainder is zero-filled.  Each iteration
writes min 8192 fdc bytes through writeTarBlock, which pads the final
incomplete block to a 512-byte boundary. -/
def saveRegularFileData (sawEof : Bool) (avail : List Nat) (fdc : Nat) : List Nat :=
  if h : fdc = 0 then []
  else
    let dc := min 8192 fdc
    let cc := if sawEof then 0 else min dc avail.length
    padTo512 (avail.take cc ++ List.replicate (dc - cc) 0) ++
      saveRegularFileData (sawEof || decide (cc < dc)) (avail.drop cc) (fdc - dc)
termination_by fdc
decreasing_by
  have h1 : 0 < min 8192 fdc := by
    have := Nat.pos_of_ne_zero h
    omega
  omega

/-- wantFileName's scan over the supplied path list (src/tar.c:730-744):
skip a path longer than the name, skip on a byte mismatch over the path's
length, accept when the lengths match or the name continues with '/'. -/
def wantLoop : List Nat → List (List Nat) → Bool
  | _, [] => false
  | n, p :: rest =>
    if n.length < p.length then wantLoop n rest
    else if n.take p.length ≠ p then wantLoop n rest
    else if n.length = p.length then true
    else if n.get? p.length = some 47 then true
    else wantLoop n rest

/-- wantFileName (src/tar.c:712-747): an empty path list selects every name;
otherwise the name is selected iff some listed path prefix-matches it at a
path-component boundary. -/
def wantFileName (n : List Nat) (table : List (List Nat)) : Bool :=
  if table.isEmpty then true else wantLoop n table

/-- Reader state: the globals of readTarFile/readHeader (src/tar.c:109-128).
The one-per-streak "Bad tar header" fprintf is modelled by the badWarns
counter, the absolute-path warning by the warnedRoot flag. -/
structure RState where
  inHeader : Bool
  badHeader : Bool
  skipFileFlag : Bool
  warnedRoot : Bool
  eofFlag : Bool
  dataCc : Int
  badWarns : Nat
deriving DecidableEq

/-- The reader state after the initialization in readTarFile (src/tar.c:292-298). -/
def initReadState : RState :=
  { inHeader := true, badHeader := false, skipFileFlag := false,
    warnedRoot := false, eofFlag := false, dataCc := 0, badWarns := 0 }

/-- A header field: len bytes starting at byte offset off of the 512-byte block. -/
def fieldAt (b : List Nat) (off len : Nat) : List Nat := (b.drop off).take len

/-- Hard-link test (src/tar.c:465): typeFlag is '1' or the raw value 1. -/
def isHardLinkFlag (tf : Nat) : Bool := tf = 49 || tf = 1

/-- Symlink test (src/tar.c:468): typeFlag is '2' or the raw value 2. -/
def isSoftLinkFlag (tf : Nat) : Bool := tf = 50 || tf = 2

/-- S_ISREG/S_ISCHR/S_ISBLK/S_ISSOCK/S_ISFIFO disjunction used at
src/tar.c:498 and 527: the mode's file-type bits name a data-bearing type. -/
def isDataBearing (m : Nat) : Bool :=
  (m &&& 0o170000 = 0o100000) || (m &&& 0o170000 = 0o020000) ||
  (m &&& 0o170000 = 0o060000) || (m &&& 0o170000 = 0o140000) ||
  (m &&& 0o170000 = 0o010000)

/-- The trailing-slash directory rule (src/tar.c:474-475): a name ending in
'/' gets S_IFDIR OR-ed into the decoded mode. -/
def mergeDirBit (name : List Nat) (m : Nat) : Nat :=
  if name.getLast? = some 47 then m ||| 0o040000 else m

/-- The extraction dispatch order of readHeader (src/tar.c:544,559,588):
hard link first, then symlink, then directory by S_ISDIR on the merged mode,
then everything else (the file/device path). -/
inductive EntryKind where
  | hardLink
  | softLink
  | directory
  | other
deriving DecidableEq

/-- Classify one entry the way readHeader dispatches it, from the typeFlag
byte and the mode after the trailing-slash merge. -/
def classifyEntry (tf m1 : Nat) : EntryKind :=
  if isHardLinkFlag tf then .hardLink
  else if isSoftLinkFlag tf then .softLink
  else if m1 &&& 0o170000 = 0o040000 then .directory
  else .other

/-- readHeader (src/tar.c:406-648) in list mode (extractFlag FALSE), which is
also the shape of the filter-excluded path.  A block whose first name byte is
NUL either marks end-of-archive (all 512 bytes zero) or is skipped; then the
mode/uid/gid/size fields are octal-decoded and a negative result makes the
block a bad header (warned only when badHeader was clear, the flag then set);
otherwise badHeader and skipFileFlag are cleared, the trailing-slash rule
merges S_IFDIR, leading slashes are stripped with the one-time warnedRoot
warning, and the entry either enters the data-copying state (inHeader FALSE,
dataCc = size) when it is a non-link data-bearing entry of nonzero size, or
leaves the reader expecting another header.  mtime, checkSum, devMajor and
devMinor are decoded by the source too but their results are never checked;
printing of the listing line has no effect on the state and is omitted. -/
def readHeader (ft : List (List Nat)) (st : RState) (b : List Nat) : RState :=
  if b.head?.getD 0 = 0 then
    if (b.take 512).all (· = 0) then { st with eofFlag := true } else st
  else
    let mode0 := getOctal (fieldAt b 100 8)
    let uid0 := getOctal (fieldAt b 108 8)
    let gid0 := getOctal (fieldAt b 116 8)
    let size0 := getOctal (fieldAt b 124 12)
    if mode0 < 0 ∨ uid0 < 0 ∨ gid0 < 0 ∨ size0 < 0 then
      { st with badHeader := true,
                badWarns := st.badWarns + if st.badHeader then 0 else 1 }
    else
      let st1 : RState := { st with badHeader := false, skipFileFlag := false }
      let cname := b.takeWhile (· ≠ 0)
      let tf := (b.drop 156).head?.getD 0
      let m1 := mergeDirBit cname mode0.toNat
      let outName := cname.dropWhile (· = 47)
      let st2 : RState :=
        if cname.head? = some 47 then { st1 with warnedRoot := true } else st1
      if wantFileName outName ft = false then
        if !isHardLinkFlag tf && !isSoftLinkFlag tf && isDataBearing m1 then
          { st2 with inHeader := decide (size0 = 0), dataCc := size0,
                     skipFileFlag := true }
        else { st2 with skipFileFlag := true }
      else
        if isHardLinkFlag tf || isSoftLinkFlag tf then st2
        else if isDataBearing m1 then
          { st2 with inHeader := decide (size0 = 0), dataCc := size0 }
        else st2

/-- The block-consumption loop of readTarFile (src/tar.c:321-379) at block
granularity, with fuel (one unit per loop step; the list length suffices
because every step consumes at least one block).  In header mode one block
goes to readHeader; in data mode the entry's dataCc bytes, rounded up to the
512-byte boundary, are consumed and the reader returns to header mode. -/
def readTarFileAux (ft : List (List Nat)) : Nat → RState → List (List Nat) → RState
  | 0, st, _ => st
  | _ + 1, st, [] => st
  | fuel + 1, st, b :: rest =>
    if st.eofFlag then st
    else if st.inHeader then readTarFileAux ft fuel (readHeader ft st b) rest
    else
      let k := max 1 ((st.dataCc.toNat + 511) / 512)
      readTarFileAux ft fuel { st with inHeader := true, dataCc := 0 }
        ((b :: rest).drop k)

/-- Run the reader over a list of 512-byte blocks. -/
def readTarFile (ft : List (List Nat)) (st : RState) (blocks : List (List Nat)) : RState :=
  readTarFileAux ft blocks.length st blocks

/-- Writer state: the archive bytes written so far and the persistent
errorFlag that writeTarBlock consults before every write (src/tar.c:1177).
Writes themselves are assumed to succeed: the output stream stays usable. -/
structure WState where
  output : List Nat
  errorFlag : Bool
deriving DecidableEq

/-- writeTarBlock as a state transformer (src/tar.c:1168-1218): a no-op once
errorFlag is set, otherwise append the buffer padded to a 512-byte multiple. -/
def writeTarBlock (st : WState) (buf : List Nat) : WState :=
  if st.errorFlag then st
  else { st with output := st.output ++ padTo512 buf }

/-- saveRegularFile as a state transformer (src/tar.c:937-1032): write the
header, then stream the data.  `content` is none when the first fullRead of
the file fails with an error, in which case errorFlag is set and the entry is
abandoned (src/tar.c:992-998); with some data the loop writes the declared
size, zero-filling any shortfall. -/
def saveRegularFileSt (st : WState) (name : List Nat) (m u g sz mt : Nat)
    (content : Option (List Nat)) : WState :=
  let st1 := writeTarBlock st (writeHeader name m u g sz mt)
  match content with
  | none => if sz = 0 then st1 else { st1 with errorFlag := true }
  | some data =>
    if st1.errorFlag then st1
    else { st1 with output := st1.output ++ saveRegularFileData false data sz }

/-- The end of writeTarFile (src/tar.c:846): writeTarBlock("", 1) sends the
single NUL byte of the empty string, which padTo512 turns into one all-zero
512-byte block — unless errorFlag suppresses the write. -/
def writeTarFileEnd (st : WState) : WState := writeTarBlock st [0]

/-- A concrete header block named "a" whose mode field holds the non-octal
byte 'x': its mode fails octal decoding, so readHeader treats it as bad. -/
def blockBadMode : List Nat :=
  [97] ++ List.replicate 99 0 ++ [120] ++ List.replicate 7 0 ++
  [48] ++ List.replicate 7 0 ++ [48] ++ List.replicate 7 0 ++
  [48] ++ List.replicate 11 0 ++ [48] ++ List.replicate 11 0 ++
  List.replicate 364 0

/-- A concrete valid header block named "a": mode/uid/gid/size/mtime all
decode to 0, typeFlag '0'; with size 0 the reader stays in header mode. -/
def blockZeroSize : List Nat :=
  [97] ++ List.replicate 99 0 ++ [48] ++ List.replicate 7 0 ++
  [48] ++ List.replicate 7 0 ++ [48] ++ List.replicate 7 0 ++
  [48] ++ List.replicate 11 0 ++ [48] ++ List.replicate 11 0 ++
  List.replicate 8 0 ++ [48] ++ List.replicate 355 0

/-- A concrete header block named "a" whose mtime field holds the non-octal
byte 'x' while mode/uid/gid/size are all valid: mtime fails octal decoding,
but readHeader never checks that result. -/
def blockBadMtime : List Nat :=
  [97] ++ List.replicate 99 0 ++ [48] ++ List.replicate 7 0 ++
  [48] ++ List.replicate 7 0 ++ [48] ++ List.replicate 7 0 ++
  [48] ++ List.replicate 11 0 ++ [120] ++ List.replicate 11 0 ++
  List.replicate 8 0 ++ [48] ++ List.replicate 355 0

/-- A concrete valid header block named "a" with typeFlag '0', nonzero size
(1) and a mode field "644\0..." holding only permission bits (0o644 = 420),
exactly the shape this program's own writer emits. -/
def blockPermOnly : List Nat :=
  [97] ++ List.replicate 99 0 ++ [54, 52, 52] ++ List.replicate 5 0 ++
  [48] ++ List.replicate 7 0 ++ [48] ++ List.replicate 7 0 ++
  [49] ++ List.replicate 11 0 ++ [48] ++ List.replicate 11 0 ++
  List.replicate 8 0 ++ [48] ++ List.replicate 355 0

/-! ### Octal digit lemmas -/

/-- Accumulate a big-endian list of octal digit values, exactly as the digit
loop of getOctal does on the digits' byte values. -/
def ofOctalDigits (acc : Int) (ds : List Nat) : Int :=
  List.foldl (fun (a : Int) (d : Nat) => a * 8 + (d : Int)) acc ds

lemma ofOctalDigits_nil (acc : Int) : ofOctalDigits acc [] = acc := rfl

lemma ofOctalDigits_cons (acc : Int) (d : Nat) (ds : List Nat) :
    ofOctalDigits acc (d :: ds) = ofOctalDigits (acc * 8 + d) ds := rfl

lemma ofOctalDigits_append (acc : Int) (l1 l2 : List Nat) :
    ofOctalDigits acc (l1 ++ l2) = ofOctalDigits (ofOctalDigits acc l1) l2 :=
  List.foldl_append ..

lemma octAux_lt8 (f n : Nat) : ∀ d ∈ octAux f n, d < 8 := by
  induction f generalizing n with
  | zero =>
    cases n with
    | zero => simp [octAux]
    | succ m => simp [octAux]
  | succ f ih =>
    cases n with
    | zero => simp [octAux]
    | succ m =>
      intro d hd
      simp only [octAux, List.mem_cons] at hd
      rcases hd with h | h
      · omega
      · exact ih _ d h

lemma octAux_foldl : ∀ (n f : Nat), n ≤ f → ∀ (acc : Int),
    ofOctalDigits acc (octAux f n).reverse = acc * 8 ^ (octAux f n).length + n := by
  intro n
  induction n using Nat.strong_induction_on with
  | _ n ih =>
    intro f hf acc
    match n, f with
    | 0, f =>
      cases f <;> simp [octAux, ofOctalDigits]
    | n + 1, f + 1 =>
      have hq : (n + 1) / 8 < n + 1 := Nat.div_lt_self (Nat.succ_pos n) (by omega)
      have hq' : (n + 1) / 8 ≤ f := by omega
      have h8 : 8 * ((n + 1) / 8) + (n + 1) % 8 = n + 1 := Nat.div_add_mod (n + 1) 8
      simp only [octAux, List.reverse_cons, ofOctalDigits_append, List.length_cons]
      rw [ih ((n + 1) / 8) hq f hq' acc]
      rw [show ofOctalDigits (acc * 8 ^ (octAux f ((n + 1) / 8)).length + ↑((n + 1) / 8))
          [(n + 1) % 8] = (acc * 8 ^ (octAux f ((n + 1) / 8)).length + ↑((n + 1) / 8)) * 8
          + ↑((n + 1) % 8) from rfl]
      have hc : ((n + 1 : Nat) : Int)
          = 8 * (((n + 1) / 8 : Nat) : Int) + (((n + 1) % 8 : Nat) : Int) := by
        exact_mod_cast h8.symm
      rw [hc]
      ring

lemma octAux_length_le : ∀ (n f : Nat), n ≤ f → ∀ k, ((octAux f n).length ≤ k ↔ n < 8 ^ k) := by
  intro n
  induction n using Nat.strong_induction_on with
  | _ n ih =>
    intro f hf k
    match n, f with
    | 0, f =>
      have hp : 0 < 8 ^ k := Nat.pos_pow_of_pos k (by omega)
      cases f <;> simp [octAux, hp]
    | n + 1, f + 1 =>
      have hq : (n + 1) / 8 < n + 1 := Nat.div_lt_self (Nat.succ_pos n) (by omega)
      have hq' : (n + 1) / 8 ≤ f := by omega
      simp only [octAux, List.length_cons]
      cases k with
      | zero =>
        simp
      | succ k =>
        have hih := ih ((n + 1) / 8) hq f hq' k
        have hdiv : (n + 1) / 8 < 8 ^ k ↔ n + 1 < 8 ^ (k + 1) := by
          rw [Nat.div_lt_iff_lt_mul (by omega : 0 < 8), pow_succ]
        omega

lemma sigOctal_ne_nil (v : Nat) : sigOctal v ≠ [] := by
  unfold sigOctal
  split
  · simp
  · rename_i hv
    intro h
    have hz : (octLE v).length = 0 := by
      simpa using congrArg List.length h
    have hlen : v < 8 ^ 0 := (octAux_length_le v v (Nat.le_refl v) 0).mp (Nat.le_of_eq hz)
    simp at hlen
    omega

lemma sigOctal_lt8 (v : Nat) : ∀ d ∈ sigOctal v, d < 8 := by
  unfold sigOctal
  split
  · simp
  · intro d hd
    exact octAux_lt8 v v d (List.mem_reverse.mp hd)

lemma sigOctal_foldl (v : Nat) : ofOctalDigits 0 (sigOctal v) = v := by
  unfold sigOctal
  split
  · rename_i hv
    simp [hv, ofOctalDigits]
  · have h := octAux_foldl v v (Nat.le_refl v) 0
    unfold octLE
    rw [h]
    ring

lemma sigOctal_length_le (v k : Nat) (hk : 1 ≤ k) :
    ((sigOctal v).length ≤ k ↔ v < 8 ^ k) := by
  unfold sigOctal
  split
  · rename_i hv
    have hp : 0 < 8 ^ k := Nat.pos_pow_of_pos k (by omega)
    subst hv
    simp only [List.length_cons, List.length_nil]
    exact ⟨fun _ => hp, fun _ => hk⟩
  · rw [List.length_reverse]
    exact octAux_length_le v v (Nat.le_refl v) k

lemma foldl_replicate_zero (k : Nat) (acc : Int) :
    ofOctalDigits acc (List.replicate k 0) = acc * 8 ^ k := by
  induction k generalizing acc with
  | zero => simp [ofOctalDigits]
  | succ k ih =>
    rw [List.replicate_succ, ofOctalDigits_cons, ih]
    push_cast
    ring

lemma sprintfOctal_length (w v : Nat) :
    (sprintfOctal w v).length = max w (sigOctal v).length := by
  simp [sprintfOctal]
  omega

lemma sprintfOctal_digits (w v : Nat) :
    ∃ ds : List Nat, sprintfOctal w v = ds.map (· + 48) ∧ ds ≠ [] ∧ (∀ d ∈ ds, d < 8) ∧
      ofOctalDigits 0 ds = v := by
  refine ⟨List.replicate (w - (sigOctal v).length) 0 ++ sigOctal v, rfl, ?_, ?_, ?_⟩
  · intro h
    exact sigOctal_ne_nil v (List.append_eq_nil.mp h).2
  · intro d hd
    rcases List.mem_append.mp hd with h | h
    · have := List.eq_of_mem_replicate h
      omega
    · exact sigOctal_lt8 v d h
  · rw [ofOctalDigits_append, foldl_replicate_zero]
    simpa using sigOctal_foldl v

/-! ### getOctal structure lemmas -/

lemma skipSpaces_replicate_append (a : Nat) (l : List Nat) :
    skipSpaces (List.replicate a 32 ++ l) = skipSpaces l := by
  induction a with
  | zero => simp
  | succ a ih => simpa [skipSpaces] using ih

lemma skipSpaces_of_head (l : List Nat) (h : ∀ c, l.head? = some c → c ≠ 32) :
    skipSpaces l = l := by
  cases l with
  | nil => rfl
  | cons c t =>
    have := h c rfl
    simp [skipSpaces, this]

lemma isOctalB_add48 (d : Nat) (hd : d < 8) : isOctalB (d + 48) = true := by
  simp [isOctalB]
  omega

lemma parseDigits_append (ds rest : List Nat) (acc : Int)
    (hlt : ∀ d ∈ ds, d < 8)
    (hrest : ∀ c, rest.head? = some c → isOctalB c = false) :
    parseDigits acc (ds.map (· + 48) ++ rest) = (ofOctalDigits acc ds, rest) := by
  induction ds generalizing acc with
  | nil =>
    cases rest with
    | nil => simp [parseDigits, ofOctalDigits_nil]
    | cons c t =>
      have := hrest c rfl
      simp [parseDigits, this, ofOctalDigits_nil]
  | cons d ds ih =>
    have hd : d < 8 := hlt d (by simp)
    have hoct := isOctalB_add48 d hd
    have hsub : ((d + 48 - 48 : Nat) : Int) = (d : Int) := by
      norm_num
    simp only [List.map_cons, List.cons_append, parseDigits, hoct, if_true, hsub,
      ofOctalDigits_cons]
    exact ih _ (fun x hx => hlt x (by simp [hx]))

/-- The full behavior of getOctal on a structurally decomposed field:
leading spaces, a nonempty octal digit run, trailing spaces, then an
arbitrary remainder.  Taking the digit run and the trailing-space run
maximal, every field whose decode reaches the final check decomposes this
way: the remainder's first byte is not a space, and is not an octal digit
when no trailing space precedes it (b = 0) — with b ≥ 1 it may be anything,
a digit included.  The decode succeeds iff the remainder is empty or starts
with a NUL byte — bytes after that first byte are never examined. -/
lemma getOctal_structured (a b : Nat) (ds rest : List Nat)
    (hds : ds ≠ []) (hlt : ∀ d ∈ ds, d < 8)
    (hrest : ∀ c, rest.head? = some c → c ≠ 32 ∧ (b = 0 → isOctalB c = false)) :
    getOctal (List.replicate a 32 ++ ds.map (· + 48) ++ List.replicate b 32 ++ rest) =
      if rest.head?.getD 0 = 0 then ofOctalDigits 0 ds else -1 := by
  obtain ⟨d0, ds', rfl⟩ := List.exists_cons_of_ne_nil hds
  have hd0 : d0 < 8 := hlt d0 (by simp)
  have hassoc : List.replicate a 32 ++ (d0 :: ds').map (· + 48) ++ List.replicate b 32 ++ rest
      = List.replicate a 32 ++ ((d0 :: ds').map (· + 48) ++ (List.replicate b 32 ++ rest)) := by
    simp [List.append_assoc]
  have hsk1 : skipSpaces (List.replicate a 32 ++ ((d0 :: ds').map (· + 48) ++
      (List.replicate b 32 ++ rest))) =
      (d0 :: ds').map (· + 48) ++ (List.replicate b 32 ++ rest) := by
    rw [skipSpaces_replicate_append]
    apply skipSpaces_of_head
    intro c hc
    simp at hc
    omega
  have htail : ∀ c, (List.replicate b 32 ++ rest).head? = some c → isOctalB c = false := by
    intro c hc
    cases b with
    | zero =>
      simp at hc
      exact (hrest c hc).2 rfl
    | succ b =>
      simp [List.replicate_succ] at hc
      simp [isOctalB, ← hc]
  have hparse := parseDigits_append (d0 :: ds') (List.replicate b 32 ++ rest) 0
    hlt htail
  have hsk2 : skipSpaces (List.replicate b 32 ++ rest) = rest := by
    rw [skipSpaces_replicate_append]
    exact skipSpaces_of_head rest (fun c hc => (hrest c hc).1)
  rw [getOctal, hassoc, hsk1]
  rw [List.map_cons] at hparse ⊢
  rw [List.cons_append, getOctalAfter, ← List.cons_append, hparse]
  simp only [isOctalB_add48 d0 hd0, Bool.true_eq_false, if_false, hsk2]
  cases rest with
  | nil => simp
  | cons r t =>
    by_cases hr : r = 0 <;> simp [hr]

lemma getOctal_no_digit (a : Nat) (rest : List Nat)
    (hrest : ∀ c, rest.head? = some c → c ≠ 32 ∧ isOctalB c = false) :
    getOctal (List.replicate a 32 ++ rest) = -1 := by
  rw [getOctal, skipSpaces_replicate_append,
    skipSpaces_of_head rest (fun c hc => (hrest c hc).1)]
  cases rest with
  | nil => rfl
  | cons c t =>
    have := (hrest c rfl).2
    simp [getOctalAfter, this]

/-! ### putOctal lemmas -/

lemma head_nul : ∀ c, ([0] : List Nat).head? = some c →
    c ≠ 32 ∧ ((0 : Nat) = 0 → isOctalB c = false) := by
  intro c hc
  simp at hc
  subst hc
  exact ⟨by omega, fun _ => by decide⟩

lemma head_nil : ∀ c, ([] : List Nat).head? = some c →
    c ≠ 32 ∧ ((0 : Nat) = 0 → isOctalB c = false) := by
  intro c hc
  simp at hc

lemma getOctal_putOctal (len v : Nat) (f : List Nat)
    (h : putOctal len v = some f) : getOctal f = (v : Int) := by
  obtain ⟨ds, hmap, hne, hlt, hval⟩ := sprintfOctal_digits (len - 2) v
  simp only [putOctal, hmap] at h
  split at h
  · have hf : f = List.replicate 1 32 ++ ds.map (· + 48) ++ List.replicate 0 32 ++ [0] := by
      simp only [Option.some.injEq] at h
      rw [← h]
      simp
    rw [hf, getOctal_structured 1 0 ds [0] hne hlt head_nul]
    simpa using hval
  · split at h
    · have hf : f = List.replicate 0 32 ++ ds.map (· + 48) ++ List.replicate 0 32 ++ [0] := by
        simp only [Option.some.injEq] at h
        rw [← h]
        simp
      rw [hf, getOctal_structured 0 0 ds [0] hne hlt head_nul]
      simpa using hval
    · split at h
      · have hf : f = List.replicate 0 32 ++ ds.map (· + 48) ++ List.replicate 0 32 ++ [] := by
          simp only [Option.some.injEq] at h
          rw [← h]
          simp
        rw [hf, getOctal_structured 0 0 ds [] hne hlt head_nil]
        simpa using hval
      · exact absurd h (by simp)

lemma putOctal_length (len v : Nat) (f : List Nat) (hlen : 2 ≤ len)
    (h : putOctal len v = some f) : f.length = len := by
  have hs1 : 1 ≤ (sigOctal v).length := List.length_pos.mpr (sigOctal_ne_nil v)
  have hL := sprintfOctal_length (len - 2) v
  simp only [putOctal] at h
  split at h
  · rename_i hc
    simp only [Option.some.injEq] at h
    rw [← h]
    simp
    omega
  · split at h
    · rename_i hc1 hc2
      simp only [Option.some.injEq] at h
      rw [← h]
      simp
      omega
    · split at h
      · rename_i hc1 hc2 hc3
        simp only [Option.some.injEq] at h
        rw [← h]
        omega
      · exact absurd h (by simp)

lemma putOctal_eq_none_iff (len v : Nat) (hlen : 2 ≤ len) :
    putOctal len v = none ↔ 8 ^ len ≤ v := by
  have hs1 : 1 ≤ (sigOctal v).length := List.length_pos.mpr (sigOctal_ne_nil v)
  have hL := sprintfOctal_length (len - 2) v
  have hiff := sigOctal_length_le v len (by omega)
  constructor
  · intro h
    by_contra hlt
    have hsle : (sigOctal v).length ≤ len := hiff.mpr (by omega)
    have hLle : (sprintfOctal (len - 2) v).length ≤ len := by omega
    obtain ⟨f, hf⟩ : ∃ f, putOctal len v = some f := by
      simp only [putOctal]
      by_cases h1 : (sprintfOctal (len - 2) v).length + 2 ≤ len
      · exact ⟨_, by rw [if_pos h1]⟩
      · by_cases h2 : (sprintfOctal (len - 2) v).length + 1 ≤ len
        · exact ⟨_, by rw [if_neg h1, if_pos h2]⟩
        · exact ⟨_, by rw [if_neg h1, if_neg h2, if_pos hLle]⟩
    rw [hf] at h
    exact absurd h (by simp)
  · intro h
    have hsgt : ¬ (sigOctal v).length ≤ len := fun hc => by
      have := hiff.mp hc
      omega
    simp only [putOctal]
    rw [if_neg (by omega), if_neg (by omega), if_neg (by omega)]

lemma putOctal_isSome (len v : Nat) (hlen : 2 ≤ len) (hv : v < 8 ^ len) :
    ∃ f, putOctal len v = some f := by
  cases hp : putOctal len v with
  | none =>
    have := (putOctal_eq_none_iff len v hlen).mp hp
    omega
  | some f => exact ⟨f, rfl⟩

lemma putOctal_bytes_lt (len v : Nat) (f : List Nat)
    (h : putOctal len v = some f) : ∀ b ∈ f, b < 256 := by
  obtain ⟨ds, hmap, hne, hlt, hval⟩ := sprintfOctal_digits (len - 2) v
  have hmem : ∀ b ∈ ds.map (· + 48), b < 256 := by
    intro b hb
    simp at hb
    obtain ⟨d, hd, rfl⟩ := hb
    have := hlt d hd
    omega
  simp only [putOctal, hmap] at h
  split at h
  · simp only [Option.some.injEq] at h
    rw [← h]
    intro b hb
    simp at hb
    rcases hb with hb | hb | hb
    · omega
    · exact hmem b (by simpa using hb)
    · omega
  · split at h
    · simp only [Option.some.injEq] at h
      rw [← h]
      intro b hb
      rcases List.mem_append.mp hb with hb | hb
      · exact hmem b hb
      · simp at hb
        omega
    · split at h
      · simp only [Option.some.injEq] at h
        rw [← h]
        exact hmem
      · exact absurd h (by simp)

/-! ### Claim theorems for the octal codec -/

/-- C2: for every non-negative value v representable in a field of width len
under putOctal's encoding scheme (v < 8^len), putOctal succeeds and getOctal
decodes the produced field back to v; for every larger value putOctal fails,
returning no field.  All putOctal call sites in the source use len = 8 or 12. -/
theorem claim_C2 (len v : Nat) (hlen : 2 ≤ len) :
    (v < 8 ^ len → ∃ f, putOctal len v = some f ∧ getOctal f = (v : Int)) ∧
    (8 ^ len ≤ v → putOctal len v = none) := by
  constructor
  · intro hv
    obtain ⟨f, hf⟩ := putOctal_isSome len v hlen hv
    exact ⟨f, hf, getOctal_putOctal len v f hf⟩
  · intro hv
    exact (putOctal_eq_none_iff len v hlen).mpr hv

/-- Witness for C2 at width 8: 420 (mode 0644) round-trips, and 8^8 is
rejected by the encoder. -/
theorem claim_C2_witness :
    (∃ f, putOctal 8 420 = some f ∧ getOctal f = (420 : Int)) ∧
      putOctal 8 16777216 = none :=
  ⟨(claim_C2 8 420 (by norm_num)).1 (by norm_num),
   (claim_C2 8 16777216 (by norm_num)).2 (by norm_num)⟩

/-- C3 counterexample: the field "1\0X" (bytes 49, 0, 88) contains the
non-space, non-NUL byte 88 after the digits-and-padding region, yet getOctal
decodes it successfully to 1 instead of failing with -1: bytes after the
first NUL are never examined. -/
theorem claim_C3_counterexample :
    getOctal [49, 0, 88] = 1 ∧ (88 : Nat) ≠ 32 ∧ (88 : Nat) ≠ 0 ∧
      getOctal [49, 0, 88] ≠ -1 := by decide

/-- C3 (amended): getOctal skips leading spaces, fails if no octal digit
follows, accumulates the octal digits, skips trailing spaces, and then
examines only the first remaining byte: it fails iff that byte exists and is
nonzero.  Bytes beyond a NUL terminator are not inspected, so a field may
hold arbitrary garbage after a NUL and still decode.  The first conjunct
covers every field with maximal digit and trailing-space runs (the remainder
head is not a space, and not an octal digit only when no trailing space
precedes it), so a digit after a trailing space, as in "1 2", is covered and
fails; the second conjunct covers the fields with no digit at all. -/
theorem claim_C3 :
    (∀ a b : Nat, ∀ ds rest : List Nat, ds ≠ [] → (∀ d ∈ ds, d < 8) →
      (∀ c, rest.head? = some c → c ≠ 32 ∧ (b = 0 → isOctalB c = false)) →
      getOctal (List.replicate a 32 ++ ds.map (· + 48) ++ List.replicate b 32 ++ rest) =
        if rest.head?.getD 0 = 0 then ofOctalDigits 0 ds else -1) ∧
    (∀ a : Nat, ∀ rest : List Nat,
      (∀ c, rest.head? = some c → c ≠ 32 ∧ isOctalB c = false) →
      getOctal (List.replicate a 32 ++ rest) = -1) :=
  ⟨getOctal_structured, getOctal_no_digit⟩

/-- Witness for C3: " 73  \0X" decodes to 0o73 = 59 despite the garbage
byte after the NUL, "1 2" fails with -1 although a digit follows the
trailing space, and " x" fails with -1. -/
theorem claim_C3_witness :
    getOctal [32, 55, 51, 32, 32, 0, 88] = 59 ∧ getOctal [49, 32, 50] = -1 ∧
      getOctal [32, 120] = -1 := by
  refine ⟨?_, ?_, ?_⟩
  · have h := claim_C3.1 1 2 [7, 3] [0, 88] (by decide) (by decide) (by decide)
    simp only [List.replicate, List.map] at h
    rw [show (7 : Nat) + 48 = 55 from rfl, show (3 : Nat) + 48 = 51 from rfl] at h
    simpa [ofOctalDigits] using h
  · have h := claim_C3.1 0 1 [1] [50] (by decide) (by decide) (by decide)
    simp only [List.replicate, List.map] at h
    rw [show (1 : Nat) + 48 = 49 from rfl] at h
    simpa using h
  · have h := claim_C3.2 1 [120] (by decide)
    simpa [List.replicate] using h

/-! ### Selection filter -/

lemma wantLoop_iff (n : List Nat) (ps : List (List Nat)) :
    wantLoop n ps = true ↔ ∃ p ∈ ps, p.length ≤ n.length ∧ n.take p.length = p ∧
      (n.length = p.length ∨ n.get? p.length = some 47) := by
  induction ps with
  | nil => simp [wantLoop]
  | cons p rest ih =>
    unfold wantLoop
    by_cases h1 : n.length < p.length
    · rw [if_pos h1, ih]
      constructor
      · intro ⟨q, hq, hlen, htake, hb⟩
        exact ⟨q, by simp [hq], hlen, htake, hb⟩
      · intro ⟨q, hq, hlen, htake, hb⟩
        rcases List.mem_cons.mp hq with rfl | hq
        · omega
        · exact ⟨q, hq, hlen, htake, hb⟩
    · rw [if_neg h1]
      by_cases h2 : n.take p.length ≠ p
      · rw [if_pos h2, ih]
        constructor
        · intro ⟨q, hq, hlen, htake, hb⟩
          exact ⟨q, by simp [hq], hlen, htake, hb⟩
        · intro ⟨q, hq, hlen, htake, hb⟩
          rcases List.mem_cons.mp hq with rfl | hq
          · exact absurd htake h2
          · exact ⟨q, hq, hlen, htake, hb⟩
      · rw [if_neg h2]
        push_neg at h2
        by_cases h3 : n.length = p.length
        · rw [if_pos h3]
          simp only [true_iff]
          exact ⟨p, by simp, by omega, h2, Or.inl h3⟩
        · rw [if_neg h3]
          by_cases h4 : n.get? p.length = some 47
          · rw [if_pos h4]
            simp only [true_iff]
            exact ⟨p, by simp, by omega, h2, Or.inr h4⟩
          · rw [if_neg h4, ih]
            constructor
            · intro ⟨q, hq, hlen, htake, hb⟩
              exact ⟨q, by simp [hq], hlen, htake, hb⟩
            · intro ⟨q, hq, hlen, htake, hb⟩
              rcases List.mem_cons.mp hq with rfl | hq
              · rcases hb with hb | hb
                · exact absurd hb h3
                · exact absurd hb h4
              · exact ⟨q, hq, hlen, htake, hb⟩

/-- C5: wantFileName selects every name when the path list is empty, and
otherwise selects a name iff some listed path is a byte-exact prefix of it
ending at a path-component boundary (equal lengths, or the next name byte is
'/').  The three boundary examples from the spec are included: "a/b" matches
prefix "a", "ab" does not match "a", "a" does not match "a/b". -/
theorem claim_C5 :
    (∀ n : List Nat, wantFileName n [] = true) ∧
    (∀ (n : List Nat) (ps : List (List Nat)), ps ≠ [] →
      (wantFileName n ps = true ↔ ∃ p ∈ ps, p.length ≤ n.length ∧
        n.take p.length = p ∧ (n.length = p.length ∨ n.get? p.length = some 47))) ∧
    wantFileName [97, 47, 98] [[97]] = true ∧
    wantFileName [97, 98] [[97]] = false ∧
    wantFileName [97] [[97, 47, 98]] = false := by
  refine ⟨fun n => rfl, fun n ps hps => ?_, by decide, by decide, by decide⟩
  rw [wantFileName, if_neg (by simpa using hps)]
  exact wantLoop_iff n ps

/-- Witness for C5: the component-boundary iff applied at name "a/b" with
path list ["a"]. -/
theorem claim_C5_witness :
    wantFileName [97, 47, 98] [[97]] = true ∧
      (wantFileName [97, 98] [[97]] = true ↔ ∃ p ∈ [[97]], p.length ≤ 2 ∧
        ([97, 98] : List Nat).take p.length = p ∧
        (2 = p.length ∨ ([97, 98] : List Nat).get? p.length = some 47)) :=
  ⟨claim_C5.2.2.1, by simpa using claim_C5.2.1 [97, 98] [[97]] (by decide)⟩

/-! ### Reader claim theorems -/

/-- C4 counterexample: blockBadMtime has a valid mode/uid/gid/size but an
mtime field that fails octal decoding, yet readHeader does not treat the
header as bad: no bad-header flag, no warning, and the entry is processed
(skipFileFlag stays clear), contradicting the claim that a failure in any of
the eight numeric fields skips the block. -/
theorem claim_C4_counterexample :
    getOctal (fieldAt blockBadMtime 136 12) = -1 ∧
    (readHeader [] initReadState blockBadMtime).badHeader = false ∧
    (readHeader [] initReadState blockBadMtime).badWarns = 0 ∧
    (readHeader [] initReadState blockBadMtime).skipFileFlag = false := by decide

/-- C4 (amended): for a non-empty header block, readHeader marks the header
bad exactly when one of mode, uid, gid or size fails octal decoding; the
mtime, checksum, devMajor and devMinor fields are decoded but their invalid
marker (-1, distinct from a decoded 0) is never checked.  On a bad header the
reader state is unchanged apart from the flag and the one-time warning: the
block is skipped and no data state is entered. -/
theorem claim_C4 (ft : List (List Nat)) (st : RState) (b : List Nat)
    (hname : ¬ b.head?.getD 0 = 0) :
    ((readHeader ft st b).badHeader = true ↔
      (getOctal (fieldAt b 100 8) < 0 ∨ getOctal (fieldAt b 108 8) < 0 ∨
       getOctal (fieldAt b 116 8) < 0 ∨ getOctal (fieldAt b 124 12) < 0)) ∧
    ((getOctal (fieldAt b 100 8) < 0 ∨ getOctal (fieldAt b 108 8) < 0 ∨
       getOctal (fieldAt b 116 8) < 0 ∨ getOctal (fieldAt b 124 12) < 0) →
      (readHeader ft st b).inHeader = st.inHeader ∧
      (readHeader ft st b).dataCc = st.dataCc ∧
      (readHeader ft st b).eofFlag = st.eofFlag ∧
      (readHeader ft st b).skipFileFlag = st.skipFileFlag) := by
  by_cases hbad : getOctal (fieldAt b 100 8) < 0 ∨ getOctal (fieldAt b 108 8) < 0 ∨
      getOctal (fieldAt b 116 8) < 0 ∨ getOctal (fieldAt b 124 12) < 0
  · constructor
    · simp [readHeader, hname, hbad]
    · intro _
      simp [readHeader, hname, hbad]
  · constructor
    · simp only [readHeader, if_neg hname, if_neg hbad]
      split_ifs <;> simp [hbad]
    · intro h
      exact absurd h hbad

/-- Witness for C4: the bad-mode block satisfies the iff, taken in the
forward direction. -/
theorem claim_C4_witness :
    (readHeader [] initReadState blockBadMode).badHeader = true :=
  ((claim_C4 [] initReadState blockBadMode (by decide)).1).mpr (by decide)

/-- C7 counterexample: over the block sequence bad, good, bad the reader
emits the bad-header warning twice in one run, because the good header in
between clears the badHeader flag; "at most once per run" fails. -/
theorem claim_C7_counterexample :
    (readTarFile [] initReadState [blockBadMode, blockZeroSize, blockBadMode]).badWarns = 2 ∧
    ¬ (readTarFile [] initReadState [blockBadMode, blockZeroSize, blockBadMode]).badWarns ≤ 1 := by
  decide

/-- C7 (amended): on a header block with an invalid numeric field the reader
warns only if the badHeader flag is clear, sets the flag (so an unbroken
streak of bad headers warns once — but a later valid header clears the flag
and a subsequent bad header warns again), stays in the expect-header state,
consumes exactly that one block and continues with the remaining blocks. -/
theorem claim_C7 (ft : List (List Nat)) (st : RState) (b : List Nat)
    (rest : List (List Nat))
    (h1 : st.inHeader = true) (h2 : st.eofFlag = false)
    (h3 : ¬ b.head?.getD 0 = 0)
    (h4 : getOctal (fieldAt b 100 8) < 0 ∨ getOctal (fieldAt b 108 8) < 0 ∨
      getOctal (fieldAt b 116 8) < 0 ∨ getOctal (fieldAt b 124 12) < 0) :
    readHeader ft st b =
      { st with badHeader := true,
                badWarns := st.badWarns + if st.badHeader then 0 else 1 } ∧
    (readHeader ft st b).inHeader = true ∧
    readTarFile ft st (b :: rest) = readTarFile ft (readHeader ft st b) rest := by
  have hstep : readHeader ft st b =
      { st with badHeader := true,
                badWarns := st.badWarns + if st.badHeader then 0 else 1 } := by
    simp [readHeader, h3, h4]
  refine ⟨hstep, by rw [hstep]; exact h1, ?_⟩
  simp [readTarFile, readTarFileAux, h1, h2]

/-- Witness for C7: the bad-mode block, from the initial state. -/
theorem claim_C7_witness :
    readHeader [] initReadState blockBadMode =
      { initReadState with badHeader := true,
                           badWarns := initReadState.badWarns +
                             if initReadState.badHeader then 0 else 1 } ∧
    (readHeader [] initReadState blockBadMode).inHeader = true ∧
    readTarFile [] initReadState [blockBadMode] =
      readTarFile [] (readHeader [] initReadState blockBadMode) [] :=
  claim_C7 [] initReadState blockBadMode [] rfl rfl (by decide) (by decide)

/-- C8 counterexample: a header named "a/" (ending in '/') with the
hard-link typeFlag '1' is classified as a hard link, not as a directory —
the link flags take precedence over the trailing-slash rule, so "directory
regardless of the type-flag byte" fails. -/
theorem claim_C8_counterexample :
    ([97, 47] : List Nat).getLast? = some 47 ∧
    classifyEntry 49 (mergeDirBit [97, 47] 420) = EntryKind.hardLink ∧
    ¬ classifyEntry 49 (mergeDirBit [97, 47] 420) = EntryKind.directory := by decide

/-- C8 (amended): readHeader classifies a hard link iff the typeFlag byte is
'1' (49) or the raw value 1 and a symlink iff it is '2' (50) or the raw
value 2; a name ending in '/' ORs S_IFDIR into the decoded mode and yields a
directory classification provided the typeFlag is not one of the link
encodings and the mode's own file-type bits are empty or already S_IFDIR. -/
theorem claim_C8 (tf m : Nat) (name : List Nat) :
    (classifyEntry tf (mergeDirBit name m) = EntryKind.hardLink ↔ (tf = 49 ∨ tf = 1)) ∧
    (classifyEntry tf (mergeDirBit name m) = EntryKind.softLink ↔ (tf = 50 ∨ tf = 2)) ∧
    (name.getLast? = some 47 → ¬ (tf = 49 ∨ tf = 1) → ¬ (tf = 50 ∨ tf = 2) →
      (m &&& 61440 = 0 ∨ m &&& 61440 = 16384) →
      classifyEntry tf (mergeDirBit name m) = EntryKind.directory) := by
  have hhiff : isHardLinkFlag tf = true ↔ (tf = 49 ∨ tf = 1) := by
    simp [isHardLinkFlag]
  have hsiff : isSoftLinkFlag tf = true ↔ (tf = 50 ∨ tf = 2) := by
    simp [isSoftLinkFlag]
  refine ⟨?_, ?_, ?_⟩
  · by_cases h1 : isHardLinkFlag tf = true
    · rw [classifyEntry, if_pos h1]
      simp [hhiff.mp h1]
    · rw [classifyEntry, if_neg h1]
      rw [← hhiff]
      split_ifs <;> simp [h1]
  · by_cases h2 : isSoftLinkFlag tf = true
    · have h1 : isHardLinkFlag tf = false := by
        rcases hsiff.mp h2 with h | h <;> subst h <;> rfl
      rw [classifyEntry, if_neg (by simp [h1]), if_pos h2]
      simp [hsiff.mp h2]
    · rw [classifyEntry, ← hsiff]
      split_ifs <;> simp [h2]
  · intro hsl hn1 hn2 hm
    have h1 : ¬ isHardLinkFlag tf = true := fun hc => hn1 (hhiff.mp hc)
    have h2 : ¬ isSoftLinkFlag tf = true := fun hc => hn2 (hsiff.mp hc)
    have hdir : mergeDirBit name m &&& 61440 = 16384 := by
      rw [mergeDirBit, if_pos hsl, Nat.and_comm, Nat.and_or_distrib_left,
        Nat.and_comm 61440 m]
      rcases hm with hm | hm <;> rw [hm] <;> decide
    rw [classifyEntry, if_neg h1, if_neg h2, if_pos hdir]

/-- Witness for C8: typeFlag '0' plus name "a/" with a permission-only mode
classifies as a directory, and typeFlag 1 is a hard link. -/
theorem claim_C8_witness :
    classifyEntry 48 (mergeDirBit [97, 47] 420) = EntryKind.directory ∧
    (classifyEntry 1 (mergeDirBit [97, 47] 420) = EntryKind.hardLink ↔ ((1 : Nat) = 49 ∨ (1 : Nat) = 1)) :=
  ⟨(claim_C8 48 420 [97, 47]).2.2 (by decide) (by decide) (by decide) (by decide),
   (claim_C8 1 420 [97, 47]).1⟩

/-! ### Header encoding lemmas -/

lemma octField_length (w v : Nat) (hw : 2 ≤ w) : (octField w v).length = w := by
  unfold octField
  cases hp : putOctal w v with
  | none => simp
  | some f => simpa using putOctal_length w v f hw hp

lemma octField_bytes_lt (w v : Nat) : ∀ b ∈ octField w v, b < 256 := by
  unfold octField
  cases hp : putOctal w v with
  | none =>
    intro b hb
    simp at hb
    omega
  | some f =>
    intro b hb
    exact putOctal_bytes_lt w v f hp b (by simpa using hb)

lemma hdrPre_length (name : List Nat) (m u g sz mt : Nat) (hn : name.length ≤ 99) :
    (hdrPre name m u g sz mt).length = 148 := by
  simp [hdrPre, octField_length 8 _ (by norm_num), octField_length 12 _ (by norm_num)]
  omega

lemma hdrPost_length : hdrPost.length = 344 := by
  simp [hdrPost]

lemma hdrPre_bytes_lt (name : List Nat) (m u g sz mt : Nat)
    (hby : ∀ c ∈ name, c < 256) : ∀ b ∈ hdrPre name m u g sz mt, b < 256 := by
  intro b hb
  simp only [hdrPre, List.mem_append] at hb
  rcases hb with (((((hb | hb) | hb) | hb) | hb) | hb) | hb
  · exact hby b hb
  · have := List.eq_of_mem_replicate hb
    omega
  · exact octField_bytes_lt 8 _ b hb
  · exact octField_bytes_lt 8 _ b hb
  · exact octField_bytes_lt 8 _ b hb
  · exact octField_bytes_lt 12 _ b hb
  · exact octField_bytes_lt 12 _ b hb

lemma hdrPost_bytes_lt : ∀ b ∈ hdrPost, b < 256 := by
  intro b hb
  simp [hdrPost, List.mem_replicate] at hb
  omega

lemma sum_le_of_bytes_lt (l : List Nat) (h : ∀ b ∈ l, b < 256) :
    l.sum ≤ 255 * l.length := by
  induction l with
  | nil => simp
  | cons a t ih =>
    have ha : a < 256 := h a (by simp)
    have ht := ih (fun b hb => h b (by simp [hb]))
    simp only [List.sum_cons, List.length_cons]
    omega

set_option maxHeartbeats 2000000 in
/-- C1: for every 512-byte header block produced by writeHeader (as padded to
the block boundary by writeTarBlock), the octal value stored in the 8-byte
checksum field at offsets 148..155 decodes to exactly the sum of all 512
bytes of the block taken with the checksum field replaced by ASCII spaces.
The hypotheses delimit the domain on which the embedding models strcpy
faithfully: the name fits the 100-byte field and consists of nonzero bytes. -/
theorem claim_C1 (name : List Nat) (m u g sz mt : Nat)
    (hn : name.length ≤ 99) (hby : ∀ c ∈ name, c < 256) (_hnz : ∀ c ∈ name, c ≠ 0) :
    getOctal (((padTo512 (writeHeader name m u g sz mt)).drop 148).take 8) =
      (((padTo512 (writeHeader name m u g sz mt)).take 148 ++ List.replicate 8 32 ++
        (padTo512 (writeHeader name m u g sz mt)).drop 156).sum : Int) := by
  have hPlen : (hdrPre name m u g sz mt).length = 148 := hdrPre_length name m u g sz mt hn
  have hblank : headerParts name m u g sz mt (List.replicate 8 32) =
      hdrPre name m u g sz mt ++ (List.replicate 8 32 ++ hdrPost) := by
    simp [headerParts, List.append_assoc]
  have hblanklen : (headerParts name m u g sz mt (List.replicate 8 32)).length = 500 := by
    rw [hblank]
    simp [hPlen, hdrPost_length]
  have hblankbytes : ∀ b ∈ headerParts name m u g sz mt (List.replicate 8 32), b < 256 := by
    intro b hb
    rw [hblank] at hb
    rcases List.mem_append.mp hb with hb | hb
    · exact hdrPre_bytes_lt name m u g sz mt hby b hb
    · rcases List.mem_append.mp hb with hb | hb
      · have := List.eq_of_mem_replicate hb
        omega
      · exact hdrPost_bytes_lt b hb
  have hSle : (headerParts name m u g sz mt (List.replicate 8 32)).sum ≤ 255 * 500 := by
    have := sum_le_of_bytes_lt _ hblankbytes
    rw [hblanklen] at this
    exact this
  have hSlt : (headerParts name m u g sz mt (List.replicate 8 32)).sum < 8 ^ 8 := by
    norm_num at hSle ⊢
    omega
  obtain ⟨f, hf⟩ := putOctal_isSome 8 _ (by norm_num) hSlt
  have hflen : f.length = 8 := putOctal_length 8 _ f (by norm_num) hf
  have hwh : writeHeader name m u g sz mt =
      hdrPre name m u g sz mt ++ (f ++ (hdrPost ++ List.replicate 0 0)) := by
    show headerParts name m u g sz mt
        ((putOctal 8 (headerParts name m u g sz mt (List.replicate 8 32)).sum).getD
          (List.replicate 8 32)) = _
    rw [hf]
    simp [headerParts, List.append_assoc]
  have hwhlen : (writeHeader name m u g sz mt).length = 500 := by
    rw [hwh]
    simp [hPlen, hflen, hdrPost_length]
  have hpad : padTo512 (writeHeader name m u g sz mt) =
      hdrPre name m u g sz mt ++ (f ++ (hdrPost ++ List.replicate 12 0)) := by
    rw [padTo512, hwhlen]
    norm_num
    rw [hwh]
    simp [List.append_assoc]
  have h2 : (padTo512 (writeHeader name m u g sz mt)).take 148 = hdrPre name m u g sz mt := by
    rw [hpad, ← hPlen, List.take_left]
  have h1 : ((padTo512 (writeHeader name m u g sz mt)).drop 148).take 8 = f := by
    rw [hpad, ← hPlen, List.drop_left, ← hflen, List.take_left]
  have h3 : (padTo512 (writeHeader name m u g sz mt)).drop 156 =
      hdrPost ++ List.replicate 12 0 := by
    rw [hpad, show (156 : Nat) = 148 + 8 from rfl, ← List.drop_drop, ← hPlen,
      List.drop_left, ← hflen, List.drop_left]
  rw [h1, h2, h3, getOctal_putOctal 8 _ f hf]
  congr 1
  rw [hblank]
  simp [List.sum_append, List.sum_replicate]

/-- Witness for C1: the header written for a file named "a" with mode 0644
and small metadata values. -/
theorem claim_C1_witness :
    getOctal (((padTo512 (writeHeader [97] 33188 3 4 5 6)).drop 148).take 8) =
      (((padTo512 (writeHeader [97] 33188 3 4 5 6)).take 148 ++ List.replicate 8 32 ++
        (padTo512 (writeHeader [97] 33188 3 4 5 6)).drop 156).sum : Int) :=
  claim_C1 [97] 33188 3 4 5 6 (by decide) (by decide) (by decide)

/-! ### Mode-bit lemmas for the data-state transition -/

lemma writeHeader_ck_length (s : Nat) :
    ((putOctal 8 s).getD (List.replicate 8 32)).length = 8 := by
  cases hp : putOctal 8 s with
  | none => simp
  | some f => simpa using putOctal_length 8 s f (by norm_num) hp

/-- The padded writeHeader output, fully right-associated, exposing the name
field and the mode field as its first two segments. -/
lemma padded_writeHeader_eq (name : List Nat) (m u g sz mt : Nat) (hn : name.length ≤ 99) :
    padTo512 (writeHeader name m u g sz mt) =
      (name ++ List.replicate (100 - name.length) 0) ++
      (octField 8 (m &&& 511) ++ (octField 8 u ++ (octField 8 g ++ (octField 12 sz ++
       (octField 12 mt ++
        ((putOctal 8 (headerParts name m u g sz mt (List.replicate 8 32)).sum).getD
          (List.replicate 8 32) ++ (hdrPost ++ List.replicate 12 0))))))) := by
  have hwh : writeHeader name m u g sz mt = headerParts name m u g sz mt
      ((putOctal 8 (headerParts name m u g sz mt (List.replicate 8 32)).sum).getD
        (List.replicate 8 32)) := rfl
  have hck : ((putOctal 8 (headerParts name m u g sz mt (List.replicate 8 32)).sum).getD
      (List.replicate 8 32)).length = 8 := writeHeader_ck_length _
  have hwhlen : (writeHeader name m u g sz mt).length = 500 := by
    rw [hwh]
    generalize hc : (putOctal 8 (headerParts name m u g sz mt (List.replicate 8 32)).sum).getD
      (List.replicate 8 32) = ck
    rw [hc] at hck
    simp only [headerParts, List.length_append, hdrPre_length name m u g sz mt hn,
      hck, hdrPost_length]
  rw [padTo512, hwhlen]
  norm_num
  rw [hwh]
  simp [headerParts, hdrPre, List.append_assoc]

lemma writeHeader_mode_decode (name : List Nat) (m u g sz mt : Nat)
    (hn : name.length ≤ 99) :
    getOctal (fieldAt (padTo512 (writeHeader name m u g sz mt)) 100 8) =
      ((m &&& 511 : Nat) : Int) := by
  rw [fieldAt, padded_writeHeader_eq name m u g sz mt hn]
  have hnl : (name ++ List.replicate (100 - name.length) 0).length = 100 := by
    simp
    omega
  have ho : (octField 8 (m &&& 511)).length = 8 := octField_length _ _ (by norm_num)
  rw [List.drop_left' hnl, List.take_left' ho]
  have hlt : m &&& 511 < 8 ^ 8 := lt_of_le_of_lt Nat.and_le_right (by norm_num)
  obtain ⟨f, hf⟩ := putOctal_isSome 8 _ (by norm_num) hlt
  rw [octField, hf, Option.getD_some]
  exact getOctal_putOctal 8 _ f hf

lemma perm_bits_only (m : Nat) : (m &&& 511) &&& 61440 = 0 := by
  rw [Nat.and_assoc, show (511 : Nat) &&& 61440 = 0 by decide]
  simp

/-- A mode whose file-type bits are all zero stays non-data-bearing after the
trailing-slash S_IFDIR merge: the merged type bits are empty or S_IFDIR,
never one of REG/CHR/BLK/SOCK/FIFO. -/
lemma isDataBearing_merge_perm (name : List Nat) (x : Nat) (hx : x &&& 61440 = 0) :
    isDataBearing (mergeDirBit name x) = false := by
  unfold mergeDirBit
  split
  · have hdir : (x ||| 16384) &&& 61440 = 16384 := by
      rw [Nat.and_comm, Nat.and_or_distrib_left, Nat.and_comm 61440 x, hx]
      decide
    simp [isDataBearing, hdir]
  · simp [isDataBearing, hx]

/-- C10: in the list-only path and the filter-excluded path the reader enters
the data-copying state (leaving header mode, dataCc set to the decoded size)
only for a non-link entry whose merged mode bits name a data-bearing type
(S_ISREG/S_ISCHR/S_ISBLK/S_ISSOCK/S_ISFIFO) and whose size is nonzero; any
header whose decoded mode carries no file-type bits leaves the reader in the
expect-header state regardless of size, so the entry's data blocks are
interpreted as headers; and this program's own writer emits exactly such
headers, its mode field decoding to st_mode masked to the 0777 permission
bits, whose file-type bits are zero. -/
theorem claim_C10 :
    (∀ (ft : List (List Nat)) (st : RState) (b : List Nat), st.inHeader = true →
      (readHeader ft st b).inHeader = false →
        isHardLinkFlag ((b.drop 156).head?.getD 0) = false ∧
        isSoftLinkFlag ((b.drop 156).head?.getD 0) = false ∧
        isDataBearing (mergeDirBit (b.takeWhile (· ≠ 0))
          (getOctal (fieldAt b 100 8)).toNat) = true ∧
        ¬ getOctal (fieldAt b 124 12) = 0 ∧
        (readHeader ft st b).dataCc = getOctal (fieldAt b 124 12)) ∧
    (∀ (ft : List (List Nat)) (st : RState) (b : List Nat), st.inHeader = true →
      (getOctal (fieldAt b 100 8)).toNat &&& 61440 = 0 →
      (readHeader ft st b).inHeader = true) ∧
    (∀ (name : List Nat) (m u g sz mt : Nat), name.length ≤ 99 →
      getOctal (fieldAt (padTo512 (writeHeader name m u g sz mt)) 100 8) =
        ((m &&& 511 : Nat) : Int) ∧ (m &&& 511) &&& 61440 = 0) := by
  refine ⟨?_, ?_, ?_⟩
  · intro ft st b h1 h2
    by_cases hname : b.head?.getD 0 = 0
    · exfalso
      rw [readHeader, if_pos hname] at h2
      split at h2 <;> simp [h1] at h2
    · by_cases hbad : getOctal (fieldAt b 100 8) < 0 ∨ getOctal (fieldAt b 108 8) < 0 ∨
          getOctal (fieldAt b 116 8) < 0 ∨ getOctal (fieldAt b 124 12) < 0
      · exfalso
        rw [readHeader, if_neg hname, if_pos hbad] at h2
        simp [h1] at h2
      · simp only [readHeader, if_neg hname, if_neg hbad] at h2 ⊢
        split_ifs at h2 ⊢ with hw hdb hl hdb2 <;>
          simp_all [Bool.and_eq_true, Bool.not_eq_true']
  · intro ft st b h1 hmode
    by_cases hname : b.head?.getD 0 = 0
    · rw [readHeader, if_pos hname]
      split <;> simp [h1]
    · by_cases hbad : getOctal (fieldAt b 100 8) < 0 ∨ getOctal (fieldAt b 108 8) < 0 ∨
          getOctal (fieldAt b 116 8) < 0 ∨ getOctal (fieldAt b 124 12) < 0
      · rw [readHeader, if_neg hname, if_pos hbad]
        simp [h1]
      · have hdb := isDataBearing_merge_perm (b.takeWhile (· ≠ 0))
          (getOctal (fieldAt b 100 8)).toNat hmode
        simp only [readHeader, if_neg hname, if_neg hbad]
        split_ifs with hw hx hy <;> simp_all [h1]
  · intro name m u g sz mt hn
    exact ⟨writeHeader_mode_decode name m u g sz mt hn, perm_bits_only m⟩

/-- Witness for C10: the concrete permission-only header with nonzero size
keeps the reader in the expect-header state, and the writer's header for
"a" with st_mode 0100644 decodes its mode field to 0644. -/
theorem claim_C10_witness :
    (readHeader [] initReadState blockPermOnly).inHeader = true ∧
    getOctal (fieldAt (padTo512 (writeHeader [97] 33188 3 4 5 6)) 100 8) =
      ((33188 &&& 511 : Nat) : Int) :=
  ⟨claim_C10.2.1 [] initReadState blockPermOnly rfl (by decide),
   (claim_C10.2.2 [97] 33188 3 4 5 6 (by decide)).1⟩

/-! ### Writer data-stream lemmas -/

lemma padTo512_eq (buf : List Nat) :
    padTo512 buf = buf ++ List.replicate (512 * ((buf.length + 511) / 512) - buf.length) 0 := by
  rw [padTo512]
  split_ifs with h
  · have hz : 512 * ((buf.length + 511) / 512) - buf.length = 0 := by omega
    simp [hz]
  · congr 2
    omega

lemma saveRegularFileData_closed (fdc : Nat) : ∀ (e : Bool) (avail : List Nat),
    saveRegularFileData e avail fdc =
      (if e then [] else avail.take (min fdc avail.length)) ++
      List.replicate (512 * ((fdc + 511) / 512) -
        (if e then 0 else min fdc avail.length)) 0 := by
  induction fdc using Nat.strong_induction_on with
  | _ fdc ih =>
    intro e avail
    by_cases h0 : fdc = 0
    · subst h0
      rw [saveRegularFileData]
      simp
    · rw [saveRegularFileData, dif_neg h0]
      cases e with
      | true =>
        have hrec := ih (fdc - min 8192 fdc) (by omega) true (avail.drop 0)
        have hb : (true || decide (0 < 8192 ⊓ fdc)) = true := by simp
        have hrec := ih (fdc - min 8192 fdc) (by omega) true avail
        simp at hrec
        simp only [if_true, List.take_zero, List.nil_append, padTo512_eq, List.drop_zero, hb, hrec]
        simp only [List.length_replicate]
        rw [← List.replicate_add, ← List.replicate_add]
        congr 1
        omega
      | false =>
        simp only [Bool.false_or, Bool.false_eq_true, if_false]
        by_cases hav : avail.length < 8192 ⊓ fdc
        · have hC : 8192 ⊓ fdc ⊓ avail.length = avail.length := by omega
          have hd : decide (avail.length < 8192 ⊓ fdc) = true := by
            simp only [decide_eq_true_eq]
            exact hav
          have hrec := ih (fdc - 8192 ⊓ fdc) (by omega) true (avail.drop avail.length)
          simp at hrec
          rw [hC, hd, List.take_length, List.drop_length, hrec, padTo512_eq]
          rw [show fdc ⊓ avail.length = avail.length from by omega, List.take_length]
          simp only [List.length_append, List.length_replicate]
          rw [List.append_assoc, List.append_assoc, ← List.replicate_add,
            ← List.replicate_add]
          congr 1
          congr 1
          omega
        · have hC : 8192 ⊓ fdc ⊓ avail.length = 8192 ⊓ fdc := by omega
          have hd : decide (8192 ⊓ fdc < 8192 ⊓ fdc) = false := by simp
          rw [hC, hd, Nat.sub_self, List.replicate_zero, List.append_nil, padTo512_eq]
          have hrec := ih (fdc - 8192 ⊓ fdc) (by omega) false (avail.drop (8192 ⊓ fdc))
          simp only [Bool.false_eq_true, if_false, List.length_drop] at hrec
          rw [hrec]
          simp only [List.length_take]
          by_cases hbig : fdc ≤ 8192
          · have hdc : 8192 ⊓ fdc = fdc := by omega
            rw [hdc]
            have hM : (fdc - fdc) ⊓ (avail.length - fdc) = 0 := by omega
            rw [hM, List.take_zero, Nat.sub_self, List.nil_append]
            rw [show 512 * ((0 + 511) / 512) - 0 = 0 from by norm_num,
              List.replicate_zero, List.append_nil]
            rw [show fdc ⊓ avail.length = fdc from by omega]
          · have hdc : 8192 ⊓ fdc = 8192 := by omega
            rw [hdc]
            have hP : 512 * ((8192 ⊓ avail.length + 511) / 512) - 8192 ⊓ avail.length = 0 := by
              omega
            rw [hP, List.replicate_zero, List.append_nil]
            have hK : fdc ⊓ avail.length = 8192 + (fdc - 8192) ⊓ (avail.length - 8192) := by
              omega
            rw [hK, List.take_add, List.append_assoc]
            rw [show 512 * ((fdc - 8192 + 511) / 512) - (fdc - 8192) ⊓ (avail.length - 8192)
                = 512 * ((fdc + 511) / 512) - (8192 + (fdc - 8192) ⊓ (avail.length - 8192))
              from by omega]

/-- C6: for a regular file with stat-reported size S the writer emits exactly
ceil(S/512)*512 data bytes after the header, with every byte at positions S
and beyond equal to zero and nothing past the padded boundary — for every
content the file actually yields, including files that shrink (yield fewer
than S bytes): the shortfall is zero-filled, so the total always matches the
size committed in the header. -/
theorem claim_C6 (content : List Nat) (S : Nat) :
    (saveRegularFileData false content S).length = 512 * ((S + 511) / 512) ∧
    (∀ i, S ≤ i → i < 512 * ((S + 511) / 512) →
      (saveRegularFileData false content S)[i]? = some 0) ∧
    (∀ i, 512 * ((S + 511) / 512) ≤ i →
      (saveRegularFileData false content S)[i]? = none) := by
  have hcf := saveRegularFileData_closed S false content
  simp only [Bool.false_eq_true, if_false] at hcf
  have hk : S ⊓ content.length ≤ 512 * ((S + 511) / 512) := by omega
  have hlen : (saveRegularFileData false content S).length = 512 * ((S + 511) / 512) := by
    rw [hcf]
    simp only [List.length_append, List.length_take, List.length_replicate]
    omega
  refine ⟨hlen, ?_, ?_⟩
  · intro i hSi hiT
    rw [hcf]
    have htl : (content.take (S ⊓ content.length)).length = S ⊓ content.length := by
      simp only [List.length_take]
      omega
    rw [List.getElem?_append_right (by omega : (content.take (S ⊓ content.length)).length ≤ i)]
    rw [htl, List.getElem?_replicate]
    rw [if_pos (by omega)]
  · intro i hiT
    have : ¬ i < (saveRegularFileData false content S).length := by omega
    exact List.getElem?_eq_none (by omega)

/-- Witness for C6: a file declared at 4 bytes that yields only 3 is padded
to one full zero-filled block. -/
theorem claim_C6_witness :
    (saveRegularFileData false [1, 2, 3] 4).length = 512 ∧
    (saveRegularFileData false [1, 2, 3] 4)[5]? = some 0 ∧
    (saveRegularFileData false [1, 2, 3] 4)[512]? = none := by
  obtain ⟨h1, h2, h3⟩ := claim_C6 [1, 2, 3] 4
  exact ⟨by simpa using h1, by simpa using h2 5 (by norm_num) (by norm_num),
    by simpa using h3 512 (by norm_num)⟩

/-- C9 counterexample: a run in which the only entry's source file fails to
read (a per-entry failure; the output stream itself stays usable) sets the
persistent errorFlag, and the final writeTarBlock("",1) then writes nothing:
the archive ends with the entry's header, not with an all-zero end marker. -/
theorem claim_C9_counterexample :
    (saveRegularFileSt ⟨[], false⟩ [97] 33188 3 4 1 5 none).errorFlag = true ∧
    writeTarFileEnd (saveRegularFileSt ⟨[], false⟩ [97] 33188 3 4 1 5 none) =
      saveRegularFileSt ⟨[], false⟩ [97] 33188 3 4 1 5 none ∧
    (saveRegularFileSt ⟨[], false⟩ [97] 33188 3 4 1 5 none).output.length = 512 ∧
    ¬ (writeTarFileEnd (saveRegularFileSt ⟨[], false⟩ [97] 33188 3 4 1 5 none)).output.drop
        ((writeTarFileEnd (saveRegularFileSt ⟨[], false⟩ [97] 33188 3 4 1 5 none)).output.length
          - 512) = List.replicate 512 0 := by decide

/-- C9 (amended): the all-zero 512-byte end-of-archive marker is appended
exactly when the persistent errorFlag is clear when writeTarFile finishes;
any failure that set the flag — including a source-file read failure with the
output stream still usable — suppresses the marker, because writeTarBlock
returns immediately once errorFlag is set. -/
theorem claim_C9 (st : WState) :
    (st.errorFlag = false →
      (writeTarFileEnd st).output = st.output ++ List.replicate 512 0 ∧
      (writeTarFileEnd st).errorFlag = false) ∧
    (st.errorFlag = true → writeTarFileEnd st = st) := by
  constructor
  · intro h
    have hz : padTo512 [0] = List.replicate 512 0 := by decide
    constructor
    · rw [writeTarFileEnd, writeTarBlock, if_neg (by simp [h]), hz]
    · rw [writeTarFileEnd, writeTarBlock, if_neg (by simp [h])]
      exact h
  · intro h
    rw [writeTarFileEnd, writeTarBlock, if_pos h]

/-- Witness for C9: with the flag clear the marker block is appended; with
the flag set the state is unchanged. -/
theorem claim_C9_witness :
    (writeTarFileEnd ⟨[1, 2], false⟩).output = [1, 2] ++ List.replicate 512 0 ∧
    writeTarFileEnd ⟨[1, 2], true⟩ = ⟨[1, 2], true⟩ :=
  ⟨((claim_C9 ⟨[1, 2], false⟩).1 rfl).1, (claim_C9 ⟨[1, 2], true⟩).2 rfl⟩

end Tar
